import Mathlib

/-!
Verification development for the Jargon transcript-history core
(`src/components/pages/MainPage.tsx`) and the dictation sound cue
(`src/components/layout/AppLayout.tsx`).

The TypeScript component is shallowly embedded:
* `HistoryItem` mirrors the `HistoryItem` record (`id`, `text`, `ts`).
* JSON values produced by `JSON.parse` are modelled by the inductive `JValue`;
  the persistent store (`window.localStorage` under the single key
  `jargon:transcriptHistory:v1`) is modelled at the parsed-JSON level: a stored
  blob is `Option (Except Unit JValue)` — `none` for an absent (or empty,
  hence falsy) raw string, `Except.error ()` for a raw string on which
  `JSON.parse` throws, and `Except.ok v` for a readable blob parsing to `v`.
  `JSON.stringify` of a history list is modelled by `encodeLog`, its exact
  parsed form.
* JavaScript `String.prototype.trim` is modelled by `jsTrim` (strip leading
  and trailing whitespace).
* Timers (`setTimeout` / `clearTimeout`) are modelled explicitly: scheduling
  allocates a fresh timer id and adds it to a pending list; cancelling removes
  it; a timer can fire only while still pending.
-/

namespace Jargon

/-- `MAX_HISTORY_ITEMS` from MainPage.tsx. -/
def MAX_HISTORY_ITEMS : Nat := 200

/-- `HISTORY_STORAGE_KEY` from MainPage.tsx. -/
def HISTORY_STORAGE_KEY : String := "jargon:transcriptHistory:v1"

/-- The 1200 ms delay of the copied-feedback clear timer in `onCopyHistoryItem`. -/
def COPY_CLEAR_DELAY_MS : Nat := 1200

/-- The 200 ms debounce window of `playDing` in AppLayout.tsx. -/
def DING_DEBOUNCE_MS : Int := 200

/-- The `HistoryItem` record of MainPage.tsx. -/
structure HistoryItem where
  id : String
  text : String
  ts : Int
  deriving Repr, DecidableEq

/-- Parsed JSON values, the possible results of `JSON.parse`. -/
inductive JValue where
  | null
  | bool (b : Bool)
  | num (n : Int)
  | str (s : String)
  | arr (items : List JValue)
  | obj (fields : List (String × JValue))
  deriving Repr

/-- Model of JavaScript `String.prototype.trim`: strip leading and trailing
whitespace characters. -/
def jsTrim (s : String) : String :=
  String.mk (((s.data.dropWhile Char.isWhitespace).reverse.dropWhile Char.isWhitespace).reverse)

/-- Field lookup in a parsed JSON object (`'k' in item` plus `item.k`). -/
def lookupField (fields : List (String × JValue)) (key : String) : Option JValue :=
  match fields with
  | [] => none
  | (k, v) :: rest => if k = key then some v else lookupField rest key

/-- The per-record validation of `loadHistory`'s filter: the record must be a
non-null object whose `id` and `text` fields are strings and whose `ts` field
is a number; on success the typed `HistoryItem` is extracted. Any other JSON
value (null, array, primitive, object missing a field or with a wrongly typed
field) is rejected. -/
def toHistoryItem : JValue → Option HistoryItem
  | JValue.obj fields =>
    match lookupField fields "id", lookupField fields "text", lookupField fields "ts" with
    | some (JValue.str i), some (JValue.str t), some (JValue.num n) =>
      some { id := i, text := t, ts := n }
    | _, _, _ => none
  | _ => none

/-- `loadHistory` from MainPage.tsx, at the parsed-storage level.
`stored = none` models an absent or empty raw string (`!raw`);
`some (Except.error ())` models a raw string on which `JSON.parse` throws
(the surrounding `try` returns `[]`); a parse result that is not an array
yields `[]`; otherwise malformed records are filtered out and the result is
truncated to `MAX_HISTORY_ITEMS`. The function is total: it never raises. -/
def loadHistory (stored : Option (Except Unit JValue)) : List HistoryItem :=
  match stored with
  | none => []
  | some (Except.error _) => []
  | some (Except.ok (JValue.arr items)) =>
    (items.filterMap toHistoryItem).take MAX_HISTORY_ITEMS
  | some (Except.ok _) => []

/-- The `stt:transcript` listener body from MainPage.tsx: trim
`event.payload?.text` (`payloadText = none` models an absent payload or text
field); if the trimmed text is empty the call is a no-op; otherwise a new
entry (fresh id `newId`, timestamp `now`) is prepended and the log is
truncated to `MAX_HISTORY_ITEMS`. -/
def appendTranscript (log : List HistoryItem) (payloadText : Option String)
    (newId : String) (now : Int) : List HistoryItem :=
  match payloadText with
  | none => log
  | some raw =>
    let text := jsTrim raw
    if text = "" then log
    else ({ id := newId, text := text, ts := now } :: log).take MAX_HISTORY_ITEMS

/-- Parsed form of `JSON.stringify` of one `HistoryItem`. -/
def encodeItem (e : HistoryItem) : JValue :=
  JValue.obj [("id", JValue.str e.id), ("text", JValue.str e.text), ("ts", JValue.num e.ts)]

/-- Parsed form of `JSON.stringify` of a history list. -/
def encodeLog (log : List HistoryItem) : JValue :=
  JValue.arr (log.map encodeItem)

/-- The component-visible state: the in-memory `history` React state and the
storage cell at `HISTORY_STORAGE_KEY` (at the parsed-JSON level). -/
structure ComponentState where
  history : List HistoryItem
  storage : Option (Except Unit JValue)
  deriving Repr

/-- Primitive state mutations, in the order the component performs them:
the `setHistory` in-memory update, and the `localStorage.setItem` write done
by the persistence effect. -/
inductive StoreAction where
  | setHistory (log : List HistoryItem)
  | storageWrite (key : String) (value : JValue)
  deriving Repr

/-- The actions a delivered `stt:transcript` event causes, in program order:
nothing when the trimmed text is empty (the listener returns before
`setHistory`, so the `[history]` persistence effect does not rerun);
otherwise the in-memory update followed by the persistence effect's write of
`JSON.stringify(history.slice(0, MAX_HISTORY_ITEMS))` under
`HISTORY_STORAGE_KEY`. -/
def transcriptActions (log : List HistoryItem) (payloadText : Option String)
    (newId : String) (now : Int) : List StoreAction :=
  match payloadText with
  | none => []
  | some raw =>
    let text := jsTrim raw
    if text = "" then []
    else
      let h := ({ id := newId, text := text, ts := now } :: log).take MAX_HISTORY_ITEMS
      [StoreAction.setHistory h,
       StoreAction.storageWrite HISTORY_STORAGE_KEY (encodeLog (h.take MAX_HISTORY_ITEMS))]

/-- Apply one primitive mutation to the component state. -/
def applyAction (st : ComponentState) : StoreAction → ComponentState
  | StoreAction.setHistory h => { st with history := h }
  | StoreAction.storageWrite _ v => { st with storage := some (Except.ok v) }

/-- One delivered `stt:transcript` event followed by the persistence effect. -/
def transcriptStep (st : ComponentState) (payloadText : Option String)
    (newId : String) (now : Int) : ComponentState :=
  (transcriptActions st.history payloadText newId now).foldl applyAction st

/-- The environment seen by `copyToClipboard`: whether
`navigator.clipboard.writeText` succeeds, whether the DOM fallback path
throws, and what `document.execCommand` returns. -/
structure ClipboardEnv where
  primaryOk : Bool
  fallbackRaises : Bool
  execCommandOk : Bool
  deriving Repr, DecidableEq

/-- The two clipboard mechanisms of `copyToClipboard`. -/
inductive ClipMech where
  | primary
  | fallback
  deriving Repr, DecidableEq

/-- `copyToClipboard` from MainPage.tsx: try `navigator.clipboard.writeText`;
on failure, fall back to the hidden-textarea `document.execCommand` path; if
that path throws, return `false`. Total: never raises. -/
def copyToClipboard (env : ClipboardEnv) (_text : String) : Bool :=
  if env.primaryOk then true
  else if env.fallbackRaises then false
  else env.execCommandOk

/-- Which mechanisms `copyToClipboard` attempts, in order: the primary one
always; the fallback only when the primary fails. -/
def copyAttempts (env : ClipboardEnv) : List ClipMech :=
  if env.primaryOk then [ClipMech.primary] else [ClipMech.primary, ClipMech.fallback]

/-- Copy-feedback state: the `copiedId` React state, the
`clearCopiedTimer` ref, plus an explicit model of the host timer system:
`pending` lists the scheduled, not-yet-cancelled, not-yet-fired timers as
(timer id, delay ms) pairs, and `nextTimerId` is the next fresh timer id. -/
structure FeedbackState where
  copiedId : Option String
  clearCopiedTimer : Option Nat
  pending : List (Nat × Nat)
  nextTimerId : Nat
  deriving Repr, DecidableEq

/-- The feedback state at mount: `useState(null)` and a `null` timer ref. -/
def initialFeedback : FeedbackState :=
  { copiedId := none, clearCopiedTimer := none, pending := [], nextTimerId := 0 }

/-- `window.clearTimeout t`: remove timer `t` from the pending timers. -/
def cancelTimer (pending : List (Nat × Nat)) (t : Nat) : List (Nat × Nat) :=
  pending.filter (fun p => p.1 ≠ t)

/-- The success path of `onCopyHistoryItem`: set `copiedId` to the entry id,
`clearTimeout` any timer recorded in the ref, then `setTimeout` a fresh
clear timer for `COPY_CLEAR_DELAY_MS` and record it in the ref. -/
def onCopySuccess (st : FeedbackState) (entryId : String) : FeedbackState :=
  let pending1 :=
    match st.clearCopiedTimer with
    | some t => cancelTimer st.pending t
    | none => st.pending
  { copiedId := some entryId
    clearCopiedTimer := some st.nextTimerId
    pending := pending1 ++ [(st.nextTimerId, COPY_CLEAR_DELAY_MS)]
    nextTimerId := st.nextTimerId + 1 }

/-- Expiry of timer `t`: it has an effect only while `t` is still pending
(a cancelled timer never fires); firing runs `setCopiedId(null)` and removes
`t` from the pending timers. -/
def fireTimer (st : FeedbackState) (t : Nat) : FeedbackState :=
  if st.pending.any (fun p => p.1 = t) then
    { st with copiedId := none, pending := cancelTimer st.pending t }
  else st

/-- `onCopyHistoryItem` from MainPage.tsx: on clipboard failure return with
no state change; on success run the feedback update. -/
def onCopyHistoryItem (env : ClipboardEnv) (st : FeedbackState) (item : HistoryItem) :
    FeedbackState :=
  if copyToClipboard env item.text then onCopySuccess st item.id else st

/-- Events driving the feedback machine: a click (with its clipboard
environment) or the expiry of a timer. -/
inductive CopyOp where
  | copy (env : ClipboardEnv) (item : HistoryItem)
  | expire (t : Nat)

/-- One feedback-machine step. -/
def copyStep (st : FeedbackState) : CopyOp → FeedbackState
  | CopyOp.copy env item => onCopyHistoryItem env st item
  | CopyOp.expire t => fireTimer st t

/-- Run a sequence of feedback-machine events. -/
def runCopyOps (st : FeedbackState) (ops : List CopyOp) : FeedbackState :=
  ops.foldl copyStep st

/-- State of the subscription effect of MainPage.tsx: the `cancelled` flag,
whether the transcript handler is currently registered (`unlisten` has been
stored and not yet called), whether the asynchronous `listen(...)` call is
still in flight, and the history log the handler mutates. -/
structure SubState where
  cancelled : Bool
  registered : Bool
  listenPending : Bool
  history : List HistoryItem
  deriving Repr

/-- Events of the subscription lifecycle: the `listen` promise resolving
(handing over the unlisten function), the promise rejecting (the `.catch`
branch), the effect cleanup at teardown, and a delivered transcript event. -/
inductive SubEvent where
  | listenResolved
  | listenFailed
  | teardown
  | transcript (payloadText : Option String) (newId : String) (now : Int)

/-- One step of the subscription lifecycle, as MainPage.tsx implements it:
when `listen` resolves after the cleanup already ran (`cancelled`), the
returned unlisten function is invoked immediately, so the handler never stays
registered; the cleanup sets `cancelled` and calls `unlisten` when present;
a delivered transcript event runs the append only while the handler is
registered. -/
def subStep (st : SubState) : SubEvent → SubState
  | SubEvent.listenResolved =>
    if st.listenPending then
      if st.cancelled then { st with listenPending := false }
      else { st with listenPending := false, registered := true }
    else st
  | SubEvent.listenFailed =>
    if st.listenPending then { st with listenPending := false } else st
  | SubEvent.teardown => { st with cancelled := true, registered := false }
  | SubEvent.transcript p i n =>
    if st.registered then { st with history := appendTranscript st.history p i n }
    else st

/-- Subscription state right after the effect body starts: `listen` pending,
nothing registered, nothing cancelled. -/
def subInit (log : List HistoryItem) : SubState :=
  { cancelled := false, registered := false, listenPending := true, history := log }

/-- Run a sequence of subscription-lifecycle events. -/
def runSub (st : SubState) (evs : List SubEvent) : SubState :=
  evs.foldl subStep st

/-- The process-wide `__jargonDictationSound` state of AppLayout.tsx. -/
structure DictationSoundState where
  active : Bool
  lastPlayedMs : Int
  deriving Repr, DecidableEq

/-- `{ active: false, lastPlayedMs: 0 }`, the state installed on first use. -/
def initialDictationSound : DictationSoundState :=
  { active := false, lastPlayedMs := 0 }

/-- `playDing` from AppLayout.tsx: no audio element means no attempt; an
attempt within `DING_DEBOUNCE_MS` of `lastPlayedMs` is debounced and changes
nothing; otherwise `lastPlayedMs` is set to `now` and playback is attempted
(a playback error is caught, so the returned flag records that the attempt
was made, not that audio came out). Returns (new state, attempted?). -/
def playDing (st : DictationSoundState) (now : Int) (audioPresent : Bool) :
    DictationSoundState × Bool :=
  if !audioPresent then (st, false)
  else if now - st.lastPlayedMs < DING_DEBOUNCE_MS then (st, false)
  else ({ st with lastPlayedMs := now }, true)

/-- The `stt:dictation-start` listener of AppLayout.tsx: if dictation is
already active the event is ignored entirely; otherwise `active` is set, then
the `sound_get_enabled` invoke runs (`Except.error ()` models a rejected
invoke, caught by the handler); only when it returns `true` is `playDing`
reached. Returns (new state, ding attempted?). -/
def onDictationStart (st : DictationSoundState) (now : Int) (audioPresent : Bool)
    (soundEnabled : Except Unit Bool) : DictationSoundState × Bool :=
  if st.active then (st, false)
  else
    let st1 := { st with active := true }
    match soundEnabled with
    | Except.error _ => (st1, false)
    | Except.ok false => (st1, false)
    | Except.ok true => playDing st1 now audioPresent

/-- The `stt:dictation-stop` listener of AppLayout.tsx. -/
def onDictationStop (st : DictationSoundState) : DictationSoundState :=
  { st with active := false }

/-! ### Helper lemmas about `List.take` and the append step -/

/-- Truncating before an append at the left never changes a truncation of the
whole: `(A ++ l.take n).take n = (A ++ l).take n`. -/
theorem take_append_take {α : Type _} (A l : List α) (n : Nat) :
    (A ++ l.take n).take n = (A ++ l).take n := by
  rw [List.take_append_eq_append_take, List.take_append_eq_append_take, List.take_take,
    Nat.min_eq_left (Nat.sub_le n A.length)]

/-- Special case of `take_append_take` for a single prepended element. -/
theorem cons_take_take {α : Type _} (x : α) (l : List α) (n : Nat) :
    (x :: l.take n).take n = (x :: l).take n :=
  take_append_take [x] l n

/-- Claim C1: for every sequence of append calls with non-empty trimmed texts
delivered in order A, B, C, the resulting log lists the entries in order
C, B, A (the most recently appended entry is at index 0), regardless of
timestamp collisions (the timestamps `ta tb tc` are arbitrary, equal or not). -/
theorem C1_append_order_newest_first (log : List HistoryItem)
    (a b c ia ib ic : String) (ta tb tc : Int)
    (ha : jsTrim a ≠ "") (hb : jsTrim b ≠ "") (hc : jsTrim c ≠ "") :
    (appendTranscript (appendTranscript (appendTranscript log (some a) ia ta)
        (some b) ib tb) (some c) ic tc).take 3 =
      [{ id := ic, text := jsTrim c, ts := tc },
       { id := ib, text := jsTrim b, ts := tb },
       { id := ia, text := jsTrim a, ts := ta }] := by
  simp only [appendTranscript, if_neg ha, if_neg hb, if_neg hc]
  rw [cons_take_take { id := ib, text := jsTrim b, ts := tb }
      ({ id := ia, text := jsTrim a, ts := ta } :: log),
    cons_take_take { id := ic, text := jsTrim c, ts := tc }
      ({ id := ib, text := jsTrim b, ts := tb } ::
        { id := ia, text := jsTrim a, ts := ta } :: log),
    List.take_take]
  simp [MAX_HISTORY_ITEMS]

/-- Witness for C1 at concrete inputs. -/
theorem C1_append_order_newest_first_witness :
    (appendTranscript (appendTranscript (appendTranscript []
        (some " a ") "i1" 5) (some "b") "i2" 5) (some "c") "i3" 5).take 3 =
      [{ id := "i3", text := "c", ts := 5 },
       { id := "i2", text := "b", ts := 5 },
       { id := "i1", text := "a", ts := 5 }] :=
  C1_append_order_newest_first [] " a " "b" "c" "i1" "i2" "i3" 5 5 5
    (by decide) (by decide) (by decide)

/-- A whole sequence of delivered transcript events, folded through the
listener. Each event is (payload text, fresh id, timestamp). -/
def appendAll (log : List HistoryItem) (events : List (Option String × String × Int)) :
    List HistoryItem :=
  events.foldl (fun acc ev => appendTranscript acc ev.1 ev.2.1 ev.2.2) log

/-- The entry a successful event creates. -/
def eventEntry (ev : Option String × String × Int) : HistoryItem :=
  { id := ev.2.1, text := jsTrim (ev.1.getD ""), ts := ev.2.2 }

/-- An event is successful (actually appends) when its payload text is present
and trims to a non-empty string. -/
def isSuccessfulEvent (ev : Option String × String × Int) : Bool :=
  match ev.1 with
  | some raw => jsTrim raw != ""
  | none => false

/-- A successful append is the prepend-then-truncate of the event's entry. -/
theorem appendTranscript_of_successful (log : List HistoryItem)
    (ev : Option String × String × Int) (h : isSuccessfulEvent ev = true) :
    appendTranscript log ev.1 ev.2.1 ev.2.2 =
      (eventEntry ev :: log).take MAX_HISTORY_ITEMS := by
  obtain ⟨p, i, t⟩ := ev
  cases p with
  | none => simp [isSuccessfulEvent] at h
  | some raw =>
    simp only [isSuccessfulEvent, bne_iff_ne, ne_eq] at h
    simp [appendTranscript, eventEntry, h]

/-- Folding successful events is a single prepend-all-then-truncate. -/
theorem appendAll_eq (events : List (Option String × String × Int))
    (log : List HistoryItem) (hlog : log.length ≤ MAX_HISTORY_ITEMS)
    (h : ∀ ev ∈ events, isSuccessfulEvent ev = true) :
    appendAll log events =
      ((events.map eventEntry).reverse ++ log).take MAX_HISTORY_ITEMS := by
  induction events generalizing log with
  | nil => simpa [appendAll] using (List.take_of_length_le hlog).symm
  | cons ev evs ih =>
    have hev := h ev (List.mem_cons_self ev evs)
    have hstep : appendTranscript log ev.1 ev.2.1 ev.2.2 =
        (eventEntry ev :: log).take MAX_HISTORY_ITEMS :=
      appendTranscript_of_successful log ev hev
    have hlen : ((eventEntry ev :: log).take MAX_HISTORY_ITEMS).length ≤ MAX_HISTORY_ITEMS := by
      rw [List.length_take]; exact Nat.min_le_left _ _
    have htail : ∀ e ∈ evs, isSuccessfulEvent e = true :=
      fun e he => h e (List.mem_cons_of_mem ev he)
    calc appendAll log (ev :: evs)
        = appendAll ((eventEntry ev :: log).take MAX_HISTORY_ITEMS) evs := by
          simp [appendAll, hstep]
      _ = ((evs.map eventEntry).reverse ++
            (eventEntry ev :: log).take MAX_HISTORY_ITEMS).take MAX_HISTORY_ITEMS :=
          ih _ hlen htail
      _ = ((evs.map eventEntry).reverse ++ (eventEntry ev :: log)).take MAX_HISTORY_ITEMS :=
          take_append_take _ _ _
      _ = (((ev :: evs).map eventEntry).reverse ++ log).take MAX_HISTORY_ITEMS := by
          simp

/-- Claim C2: every operation keeps the log length at most 200 — `loadHistory`
always, and an append from a within-capacity log; on overflow (a full log of
length 200 and a successful append) the tail entry is dropped; and after more
than 200 successful appends the log has length exactly 200 and consists of
the entries of the 200 most recent events, newest first. -/
theorem C2_capacity_bound :
    (∀ stored, (loadHistory stored).length ≤ MAX_HISTORY_ITEMS)
    ∧ (∀ (log : List HistoryItem) p i n, log.length ≤ MAX_HISTORY_ITEMS →
        (appendTranscript log p i n).length ≤ MAX_HISTORY_ITEMS)
    ∧ (∀ (log : List HistoryItem) (raw i : String) (n : Int), jsTrim raw ≠ "" →
        log.length = MAX_HISTORY_ITEMS →
        appendTranscript log (some raw) i n =
          { id := i, text := jsTrim raw, ts := n } :: log.take (MAX_HISTORY_ITEMS - 1))
    ∧ (∀ (log : List HistoryItem) events, log.length ≤ MAX_HISTORY_ITEMS →
        (∀ ev ∈ events, isSuccessfulEvent ev = true) →
        MAX_HISTORY_ITEMS < events.length →
        (appendAll log events).length = MAX_HISTORY_ITEMS ∧
        appendAll log events = (events.map eventEntry).reverse.take MAX_HISTORY_ITEMS) := by
  refine ⟨?_, ?_, ?_, ?_⟩
  · intro stored
    match stored with
    | none => simp [loadHistory]
    | some (Except.error _) => simp [loadHistory]
    | some (Except.ok (JValue.arr items)) =>
      simp only [loadHistory, List.length_take]
      exact Nat.min_le_left _ _
    | some (Except.ok JValue.null) => simp [loadHistory]
    | some (Except.ok (JValue.bool _)) => simp [loadHistory]
    | some (Except.ok (JValue.num _)) => simp [loadHistory]
    | some (Except.ok (JValue.str _)) => simp [loadHistory]
    | some (Except.ok (JValue.obj _)) => simp [loadHistory]
  · intro log p i n hlog
    match p with
    | none => simpa [appendTranscript] using hlog
    | some raw =>
      by_cases hr : jsTrim raw = ""
      · simpa [appendTranscript, hr] using hlog
      · simp only [appendTranscript, if_neg hr, List.length_take]
        exact Nat.min_le_left _ _
  · intro log raw i n hr hlen
    simp only [appendTranscript, if_neg hr, MAX_HISTORY_ITEMS] at hlen ⊢
    rw [show (200 : Nat) = 199 + 1 from rfl, List.take_succ_cons]
  · intro log events hlog hsucc hmore
    have hall := appendAll_eq events log hlog hsucc
    have hRlen : MAX_HISTORY_ITEMS ≤ (events.map eventEntry).reverse.length := by
      rw [List.length_reverse, List.length_map]
      exact Nat.le_of_lt hmore
    have heq : appendAll log events = (events.map eventEntry).reverse.take MAX_HISTORY_ITEMS := by
      rw [hall, List.take_append_of_le_length hRlen]
    refine ⟨?_, heq⟩
    rw [heq, List.length_take]
    exact Nat.min_eq_left hRlen

/-- Witness for C2: 201 successful appends onto an empty log leave exactly
200 entries. -/
theorem C2_capacity_bound_witness :
    (appendAll [] (List.replicate 201 ((some "x" : Option String), "i", (7 : Int)))).length =
      MAX_HISTORY_ITEMS := by
  refine (C2_capacity_bound.2.2.2 [] _ (by decide) ?_ ?_).1
  · intro ev hev
    rw [List.eq_of_mem_replicate hev]
    decide
  · rw [List.length_replicate]
    decide

/-- Validation predicate written from the spec's words: a stored record is
valid-shaped when it is an object carrying a string `id`, a string `text` and
a numeric `ts`. Compared against the code's `toHistoryItem` filter. -/
def specValidRecord (j : JValue) : Bool :=
  match j with
  | JValue.obj fields =>
    (match lookupField fields "id" with
      | some (JValue.str _) => true
      | _ => false)
    && (match lookupField fields "text" with
      | some (JValue.str _) => true
      | _ => false)
    && (match lookupField fields "ts" with
      | some (JValue.num _) => true
      | _ => false)
  | _ => false

/-- The code's record filter accepts exactly the spec's valid-shaped records. -/
theorem toHistoryItem_isSome_eq_specValidRecord (j : JValue) :
    (toHistoryItem j).isSome = specValidRecord j := by
  cases j with
  | null => rfl
  | bool b => rfl
  | num n => rfl
  | str s => rfl
  | arr items => rfl
  | obj fields =>
    simp only [toHistoryItem, specValidRecord]
    rcases lookupField fields "id" with _ | v1 <;>
      rcases lookupField fields "text" with _ | v2 <;>
        rcases lookupField fields "ts" with _ | v3 <;>
          (try cases v1) <;> (try cases v2) <;> (try cases v3) <;> rfl

/-- The stored blob of the spec's worked example:
`[{"id":"a","text":"hi","ts":1}, {"bad":1}, {"id":"b","text":"x","ts":2}]`. -/
def exampleStoredBlob : JValue :=
  JValue.arr
    [JValue.obj [("id", JValue.str "a"), ("text", JValue.str "hi"), ("ts", JValue.num 1)],
     JValue.obj [("bad", JValue.num 1)],
     JValue.obj [("id", JValue.str "b"), ("text", JValue.str "x"), ("ts", JValue.num 2)]]

/-- Claim C3: `load()` never raises (it is a total function into history
lists by construction) and: it returns the empty log when storage is absent,
unreadable, or not an array; on an array it returns exactly the records the
filter keeps, in stored relative order, capped to 200; the filter keeps
exactly the spec's valid-shaped records and extracts their fields verbatim;
and on the spec's worked example it returns the two well-formed entries,
dropping the malformed one. -/
theorem C3_load_contract :
    loadHistory none = []
    ∧ loadHistory (some (Except.error ())) = []
    ∧ (∀ v : JValue, (∀ items, v ≠ JValue.arr items) →
        loadHistory (some (Except.ok v)) = [])
    ∧ (∀ items, loadHistory (some (Except.ok (JValue.arr items))) =
        (items.filterMap toHistoryItem).take MAX_HISTORY_ITEMS)
    ∧ (∀ j, (toHistoryItem j).isSome = specValidRecord j)
    ∧ (∀ fields (i t : String) (n : Int),
        lookupField fields "id" = some (JValue.str i) →
        lookupField fields "text" = some (JValue.str t) →
        lookupField fields "ts" = some (JValue.num n) →
        toHistoryItem (JValue.obj fields) = some { id := i, text := t, ts := n })
    ∧ loadHistory (some (Except.ok exampleStoredBlob)) =
        [{ id := "a", text := "hi", ts := 1 }, { id := "b", text := "x", ts := 2 }] := by
  refine ⟨rfl, rfl, ?_, fun _ => rfl, toHistoryItem_isSome_eq_specValidRecord, ?_, ?_⟩
  · intro v h
    cases v with
    | arr items => exact absurd rfl (h items)
    | null => rfl
    | bool b => rfl
    | num n => rfl
    | str s => rfl
    | obj fields => rfl
  · intro fields i t n h1 h2 h3
    simp [toHistoryItem, h1, h2, h3]
  · rfl

/-- Witness for C3 at concrete inputs: a non-array blob loads as empty, and a
well-formed record is extracted verbatim. -/
theorem C3_load_contract_witness :
    loadHistory (some (Except.ok (JValue.num 3))) = []
    ∧ toHistoryItem
        (JValue.obj [("id", JValue.str "a"), ("text", JValue.str "hi"), ("ts", JValue.num 1)]) =
      some { id := "a", text := "hi", ts := 1 } :=
  ⟨C3_load_contract.2.2.1 (JValue.num 3) (fun _ h => JValue.noConfusion h),
   C3_load_contract.2.2.2.2.2.1 _ "a" "hi" 1 rfl rfl rfl⟩

/-- Truncating twice to the capacity is truncating once. -/
theorem take_max_idem (l : List HistoryItem) :
    (l.take MAX_HISTORY_ITEMS).take MAX_HISTORY_ITEMS = l.take MAX_HISTORY_ITEMS := by
  rw [List.take_take, Nat.min_self]

/-- Decoding an encoded entry recovers it exactly. -/
theorem toHistoryItem_encodeItem (e : HistoryItem) :
    toHistoryItem (encodeItem e) = some e := rfl

/-- Decoding an encoded history list recovers it exactly. -/
theorem filterMap_toHistoryItem_encode (L : List HistoryItem) :
    (L.map encodeItem).filterMap toHistoryItem = L := by
  induction L with
  | nil => rfl
  | cons e rest ih => simp [toHistoryItem_encodeItem, ih]

/-- Loading an encoded history list recovers it, up to the capacity cap. -/
theorem loadHistory_encodeLog (L : List HistoryItem) :
    loadHistory (some (Except.ok (encodeLog L))) = L.take MAX_HISTORY_ITEMS := by
  have h : loadHistory (some (Except.ok (encodeLog L))) =
      ((L.map encodeItem).filterMap toHistoryItem).take MAX_HISTORY_ITEMS := rfl
  rw [h, filterMap_toHistoryItem_encode]

/-- Claim C4: a successful append performs, in program order, the in-memory
update first and the storage write second (the action list), and afterwards
the storage cell holds exactly the serialization of the new in-memory log,
under `HISTORY_STORAGE_KEY`, capped to 200 entries. -/
theorem C4_persist_after_append (st : ComponentState) (raw i : String) (n : Int)
    (hr : jsTrim raw ≠ "") :
    transcriptActions st.history (some raw) i n =
      [StoreAction.setHistory (appendTranscript st.history (some raw) i n),
       StoreAction.storageWrite HISTORY_STORAGE_KEY
         (encodeLog (appendTranscript st.history (some raw) i n))]
    ∧ (transcriptStep st (some raw) i n).history =
        appendTranscript st.history (some raw) i n
    ∧ (transcriptStep st (some raw) i n).storage =
        some (Except.ok (encodeLog ((transcriptStep st (some raw) i n).history)))
    ∧ (appendTranscript st.history (some raw) i n).length ≤ MAX_HISTORY_ITEMS := by
  refine ⟨?_, ?_, ?_, ?_⟩
  · simp [transcriptActions, appendTranscript, hr, take_max_idem]
  · simp [transcriptStep, transcriptActions, appendTranscript, hr, applyAction]
  · simp [transcriptStep, transcriptActions, appendTranscript, hr, applyAction, take_max_idem]
  · simp only [appendTranscript, if_neg hr, List.length_take]
    exact Nat.min_le_left _ _

/-- Witness for C4 at concrete inputs. -/
theorem C4_persist_after_append_witness :
    transcriptActions ([] : List HistoryItem) (some "hi") "id1" 3 =
      [StoreAction.setHistory [{ id := "id1", text := "hi", ts := 3 }],
       StoreAction.storageWrite HISTORY_STORAGE_KEY
         (encodeLog [{ id := "id1", text := "hi", ts := 3 }])]
    ∧ (transcriptStep { history := [], storage := none } (some "hi") "id1" 3).history =
        [{ id := "id1", text := "hi", ts := 3 }]
    ∧ (transcriptStep { history := [], storage := none } (some "hi") "id1" 3).storage =
        some (Except.ok (encodeLog [{ id := "id1", text := "hi", ts := 3 }])) := by
  have h := C4_persist_after_append { history := [], storage := none } "hi" "id1" 3 (by decide)
  exact ⟨h.1, h.2.1, by rw [h.2.2.1, h.2.1]; rfl⟩

/-- Claim C7: for every component state, appending "hello", persisting (the
`transcriptStep` bundles both) and reloading via `loadHistory` yields a log
whose head entry has text "hello". -/
theorem C7_roundtrip_head_hello (st : ComponentState) (i : String) (n : Int) :
    (loadHistory (transcriptStep st (some "hello") i n).storage).head? =
      some { id := i, text := "hello", ts := n } := by
  have hr : jsTrim "hello" ≠ "" := by decide
  have hh : jsTrim "hello" = "hello" := by decide
  simp only [transcriptStep, transcriptActions, appendTranscript, if_neg hr,
    List.foldl_cons, List.foldl_nil, applyAction]
  rw [take_max_idem, loadHistory_encodeLog, take_max_idem, hh]
  rw [show MAX_HISTORY_ITEMS = 199 + 1 from rfl, List.take_succ_cons]
  rfl

/-- Claim C8: when the trimmed text is empty (or the payload text absent),
the append is a no-op: the log is unchanged, no action (neither the in-memory
update nor a persistence write) is emitted, and the component state is
untouched. -/
theorem C8_empty_trim_noop (st : ComponentState) (raw i : String) (n : Int)
    (hr : jsTrim raw = "") :
    appendTranscript st.history (some raw) i n = st.history
    ∧ transcriptActions st.history (some raw) i n = []
    ∧ transcriptStep st (some raw) i n = st
    ∧ appendTranscript st.history none i n = st.history
    ∧ transcriptActions st.history none i n = []
    ∧ transcriptStep st none i n = st := by
  refine ⟨?_, ?_, ?_, rfl, rfl, rfl⟩ <;>
    simp [appendTranscript, transcriptActions, transcriptStep, hr]

/-- Witness for C8 at a whitespace-only input. -/
theorem C8_empty_trim_noop_witness :
    transcriptStep { history := [{ id := "k", text := "kept", ts := 0 }], storage := none }
        (some "  ") "id2" 9 =
      { history := [{ id := "k", text := "kept", ts := 0 }], storage := none } :=
  (C8_empty_trim_noop { history := [{ id := "k", text := "kept", ts := 0 }], storage := none }
    "  " "id2" 9 (by decide)).2.2.1

/-- Reachability invariant of the feedback machine: either no clear timer is
pending, or exactly one is, it is the one recorded in the `clearCopiedTimer`
ref, and its id is stale-free (below the fresh-id counter). -/
def FeedbackInv (st : FeedbackState) : Prop :=
  st.pending = [] ∨
    ∃ t d, st.pending = [(t, d)] ∧ st.clearCopiedTimer = some t ∧ t < st.nextTimerId

/-- From an invariant state, a successful copy leaves exactly the freshly
scheduled clear timer pending (any previous one is cancelled). -/
theorem onCopySuccess_pending (st : FeedbackState) (entryId : String)
    (h : FeedbackInv st) :
    (onCopySuccess st entryId).pending = [(st.nextTimerId, COPY_CLEAR_DELAY_MS)] := by
  rcases h with h | ⟨t, d, hp, hc, _⟩
  · cases hcc : st.clearCopiedTimer <;> simp [onCopySuccess, hcc, h, cancelTimer]
  · simp [onCopySuccess, hp, hc, cancelTimer]

/-- A successful copy preserves the invariant. -/
theorem FeedbackInv_onCopySuccess (st : FeedbackState) (entryId : String)
    (h : FeedbackInv st) : FeedbackInv (onCopySuccess st entryId) :=
  Or.inr ⟨st.nextTimerId, COPY_CLEAR_DELAY_MS, onCopySuccess_pending st entryId h,
    rfl, Nat.lt_succ_self _⟩

/-- A timer that is not pending cannot fire: its expiry is a no-op. -/
theorem fireTimer_not_pending (st : FeedbackState) (t : Nat)
    (h : st.pending.any (fun p => p.1 = t) = false) : fireTimer st t = st := by
  simp [fireTimer, h]

/-- Expiry of a timer preserves the invariant. -/
theorem FeedbackInv_fireTimer (st : FeedbackState) (t : Nat)
    (h : FeedbackInv st) : FeedbackInv (fireTimer st t) := by
  rcases h with h | ⟨u, d, hp, hc, hn⟩
  · left
    simp [fireTimer, h]
  · by_cases he : u = t
    · subst he
      left
      simp [fireTimer, hp, cancelTimer]
    · rw [fireTimer_not_pending st t (by simp [hp, he])]
      exact Or.inr ⟨u, d, hp, hc, hn⟩

/-- Every state the machine reaches from an invariant state is invariant. -/
theorem runCopyOps_inv (ops : List CopyOp) (st : FeedbackState)
    (h : FeedbackInv st) : FeedbackInv (runCopyOps st ops) := by
  induction ops generalizing st with
  | nil => exact h
  | cons op rest ih =>
    refine ih _ ?_
    cases op with
    | copy env item =>
      show FeedbackInv (onCopyHistoryItem env st item)
      unfold onCopyHistoryItem
      by_cases hc : copyToClipboard env item.text
      · rw [if_pos hc]; exact FeedbackInv_onCopySuccess st item.id h
      · rw [if_neg hc]; exact h
    | expire t => exact FeedbackInv_fireTimer st t h

/-- Claim C5: the copy-feedback machine starts Idle; a successful copy moves
it to Copied(id) and schedules the 1200 ms clear; from an invariant state the
scheduled timer's expiry returns it to Idle; a second successful copy before
expiry supersedes the id, leaves exactly the new timer pending, and removes
the previous timer from the pending set (cancelled: its expiry is then a
no-op, so only the one remaining timer can fire); and along every event
sequence from the initial state at most one clear timer is pending. -/
theorem C5_copy_feedback :
    (initialFeedback.copiedId = none ∧ initialFeedback.pending = [])
    ∧ (∀ st entryId, (onCopySuccess st entryId).copiedId = some entryId
        ∧ (onCopySuccess st entryId).clearCopiedTimer = some st.nextTimerId
        ∧ (FeedbackInv st → (onCopySuccess st entryId).pending =
            [(st.nextTimerId, COPY_CLEAR_DELAY_MS)]))
    ∧ (∀ st entryId, FeedbackInv st →
        (fireTimer (onCopySuccess st entryId) st.nextTimerId).copiedId = none
        ∧ (fireTimer (onCopySuccess st entryId) st.nextTimerId).pending = [])
    ∧ (∀ st id1 id2, FeedbackInv st →
        (onCopySuccess (onCopySuccess st id1) id2).copiedId = some id2
        ∧ (onCopySuccess (onCopySuccess st id1) id2).pending =
            [(st.nextTimerId + 1, COPY_CLEAR_DELAY_MS)]
        ∧ ∀ d, (st.nextTimerId, d) ∉ (onCopySuccess (onCopySuccess st id1) id2).pending)
    ∧ (∀ st t, st.pending.any (fun p => p.1 = t) = false → fireTimer st t = st)
    ∧ (∀ ops, (runCopyOps initialFeedback ops).pending.length ≤ 1) := by
  refine ⟨⟨rfl, rfl⟩, ?_, ?_, ?_, fireTimer_not_pending, ?_⟩
  · intro st entryId
    exact ⟨rfl, rfl, onCopySuccess_pending st entryId⟩
  · intro st entryId h
    have hp := onCopySuccess_pending st entryId h
    constructor <;> simp [fireTimer, hp, cancelTimer]
  · intro st id1 id2 h
    have h1 : FeedbackInv (onCopySuccess st id1) := FeedbackInv_onCopySuccess st id1 h
    have hp2 : (onCopySuccess (onCopySuccess st id1) id2).pending =
        [(st.nextTimerId + 1, COPY_CLEAR_DELAY_MS)] :=
      onCopySuccess_pending (onCopySuccess st id1) id2 h1
    refine ⟨rfl, hp2, ?_⟩
    intro d hd
    rw [hp2] at hd
    simp at hd
  · intro ops
    rcases runCopyOps_inv ops initialFeedback (Or.inl rfl) with h | ⟨t, d, hp, _, _⟩
    · simp [h]
    · simp [hp]

/-- Witness for C5 at concrete inputs: two rapid copies from the initial
state end at the second id with exactly the second timer pending, and the
scheduled timer's expiry after a single copy clears the feedback. -/
theorem C5_copy_feedback_witness :
    (onCopySuccess (onCopySuccess initialFeedback "e1") "e2").copiedId = some "e2"
    ∧ (onCopySuccess (onCopySuccess initialFeedback "e1") "e2").pending =
        [(1, COPY_CLEAR_DELAY_MS)]
    ∧ (fireTimer (onCopySuccess initialFeedback "e1") 0).copiedId = none := by
  have h4 := C5_copy_feedback.2.2.2.1 initialFeedback "e1" "e2" (Or.inl rfl)
  have h3 := C5_copy_feedback.2.2.1 initialFeedback "e1" (Or.inl rfl)
  exact ⟨h4.1, h4.2.1, h3.1⟩

/-- Claim C6: `copyToClipboard` attempts the primary mechanism first, the
fallback exactly when the primary fails, succeeds iff the primary succeeds or
the fallback path does not throw and the editor-style copy command reports
success, and returns false (it is a total Boolean function — never raises)
when both fail; on a failed copy the feedback state, including any pending
clear timer, is left completely unchanged. -/
theorem C6_clipboard_fallback :
    (∀ env, (copyAttempts env).head? = some ClipMech.primary)
    ∧ (∀ env, ClipMech.fallback ∈ copyAttempts env ↔ env.primaryOk = false)
    ∧ (∀ env text, copyToClipboard env text = true ↔
        (env.primaryOk = true ∨ (env.fallbackRaises = false ∧ env.execCommandOk = true)))
    ∧ (∀ env text, env.primaryOk = false →
        (env.fallbackRaises = true ∨ env.execCommandOk = false) →
        copyToClipboard env text = false)
    ∧ (∀ env st item, copyToClipboard env item.text = false →
        onCopyHistoryItem env st item = st) := by
  refine ⟨?_, ?_, ?_, ?_, ?_⟩
  · intro env
    by_cases h : env.primaryOk <;> simp [copyAttempts, h]
  · intro env
    by_cases h : env.primaryOk <;> simp [copyAttempts, h]
  · intro env text
    obtain ⟨p, f, e⟩ := env
    cases p <;> cases f <;> cases e <;> simp [copyToClipboard]
  · intro env text hp hfe
    obtain ⟨p, f, e⟩ := env
    cases p <;> cases f <;> cases e <;> simp_all [copyToClipboard]
  · intro env st item h
    simp [onCopyHistoryItem, h]

/-- Witness for C6 at a concrete both-fail environment. -/
theorem C6_clipboard_fallback_witness :
    copyToClipboard { primaryOk := false, fallbackRaises := true, execCommandOk := true } "t" = false
    ∧ onCopyHistoryItem { primaryOk := false, fallbackRaises := true, execCommandOk := true }
        initialFeedback { id := "e", text := "t", ts := 0 } = initialFeedback := by
  have h := C6_clipboard_fallback
  have hfail := h.2.2.2.1 { primaryOk := false, fallbackRaises := true, execCommandOk := true }
    "t" rfl (Or.inl rfl)
  exact ⟨hfail, h.2.2.2.2 _ initialFeedback { id := "e", text := "t", ts := 0 } hfail⟩

/-- Once the cleanup has run, the `cancelled` flag never resets. -/
theorem subStep_cancelled (st : SubState) (e : SubEvent) (h : st.cancelled = true) :
    (subStep st e).cancelled = true := by
  cases e <;> simp only [subStep] <;> (repeat' split) <;> simp_all

/-- After the cleanup, the handler can never become registered again — in
particular a `listen` promise resolving late hands back an unlisten function
that is invoked immediately. -/
theorem subStep_not_registered (st : SubState) (e : SubEvent)
    (hc : st.cancelled = true) (hr : st.registered = false) :
    (subStep st e).registered = false := by
  cases e <;> simp only [subStep] <;> (repeat' split) <;> simp_all

/-- While the handler is not registered, no event mutates the history. -/
theorem subStep_history (st : SubState) (e : SubEvent) (hr : st.registered = false) :
    (subStep st e).history = st.history := by
  cases e <;> simp only [subStep] <;> (repeat' split) <;> simp_all

/-- From any cancelled, unregistered state, an arbitrary event sequence
leaves the history untouched. -/
theorem runSub_history_frozen (evs : List SubEvent) (st : SubState)
    (hc : st.cancelled = true) (hr : st.registered = false) :
    (runSub st evs).history = st.history := by
  induction evs generalizing st with
  | nil => rfl
  | cons e rest ih =>
    have hc' := subStep_cancelled st e hc
    have hr' := subStep_not_registered st e hc hr
    calc (runSub st (e :: rest)).history
        = (runSub (subStep st e) rest).history := rfl
      _ = (subStep st e).history := ih (subStep st e) hc' hr'
      _ = st.history := subStep_history st e hr

/-- Claim C9: after the subscription effect's cleanup has run (teardown),
delivering further events — transcript events in flight, or the asynchronous
`listen` setup resolving only after teardown — never mutates the log. -/
theorem C9_no_append_after_teardown (log : List HistoryItem)
    (pre post : List SubEvent) :
    (runSub (runSub (subInit log) (pre ++ [SubEvent.teardown])) post).history =
      (runSub (subInit log) (pre ++ [SubEvent.teardown])).history := by
  have hsplit : runSub (subInit log) (pre ++ [SubEvent.teardown]) =
      subStep (runSub (subInit log) pre) SubEvent.teardown := by
    simp [runSub, List.foldl_append]
  have hc : (runSub (subInit log) (pre ++ [SubEvent.teardown])).cancelled = true := by
    rw [hsplit]; rfl
  have hr : (runSub (subInit log) (pre ++ [SubEvent.teardown])).registered = false := by
    rw [hsplit]; rfl
  exact runSub_history_frozen post _ hc hr

/-- Claim C10: a dictation-start received while dictation is already active
changes nothing and plays no sound; a start from the inactive state marks
dictation active; a play attempt within 200 ms of `lastPlayedMs` is
debounced, changing nothing; `lastPlayedMs` is updated (to the attempt time)
exactly on a non-suppressed attempt; and through the start handler, a
debounced attempt neither plays nor moves the timestamp. -/
theorem C10_dictation_sound_debounce :
    (∀ st (now : Int) ap se, st.active = true → onDictationStart st now ap se = (st, false))
    ∧ (∀ st (now : Int) ap se, st.active = false →
        (onDictationStart st now ap se).1.active = true)
    ∧ (∀ st (now : Int) ap, now - st.lastPlayedMs < DING_DEBOUNCE_MS →
        playDing st now ap = (st, false))
    ∧ (∀ st (now : Int) ap, (playDing st now ap).1.lastPlayedMs =
        if (playDing st now ap).2 then now else st.lastPlayedMs)
    ∧ (∀ st (now : Int) se, st.active = false →
        now - st.lastPlayedMs < DING_DEBOUNCE_MS →
        (onDictationStart st now true se).2 = false
        ∧ (onDictationStart st now true se).1.lastPlayedMs = st.lastPlayedMs) := by
  refine ⟨?_, ?_, ?_, ?_, ?_⟩
  · intro st now ap se h
    simp [onDictationStart, h]
  · intro st now ap se h
    cases se with
    | error e => simp [onDictationStart, h]
    | ok b =>
      cases b with
      | false => simp [onDictationStart, h]
      | true =>
        simp only [onDictationStart, h, Bool.false_eq_true, if_false, playDing]
        (repeat' split) <;> rfl
  · intro st now ap h
    cases ap <;> simp [playDing, h]
  · intro st now ap
    cases ap <;> simp only [playDing] <;> (repeat' split) <;> simp_all
  · intro st now se ha hd
    cases se with
    | error e => simp [onDictationStart, ha]
    | ok b =>
      cases b with
      | false => simp [onDictationStart, ha]
      | true => simp [onDictationStart, ha, playDing, hd]

/-- Witness for C10 at concrete inputs: an already-active start is ignored,
and an attempt 50 ms after the last play is debounced. -/
theorem C10_dictation_sound_debounce_witness :
    onDictationStart { active := true, lastPlayedMs := 0 } 1000 true (Except.ok true) =
      ({ active := true, lastPlayedMs := 0 }, false)
    ∧ playDing { active := false, lastPlayedMs := 100 } 150 true =
      ({ active := false, lastPlayedMs := 100 }, false) :=
  ⟨C10_dictation_sound_debounce.1 { active := true, lastPlayedMs := 0 } 1000 true
      (Except.ok true) rfl,
   C10_dictation_sound_debounce.2.2.1 { active := false, lastPlayedMs := 100 } 150 true
      (by decide)⟩

end Jargon
